import Mathlib

/-!
Verification of the shortcut-matching and edge-detection engine of the
`evdev-shortcut` crate, shallowly embedded from `src/lib.rs` and
`src/listener.rs`.  Machine bytes (`u8`) are modelled as `Nat` values that
stay below 256 (all operations used are `|||` and `&&&`, which cannot
overflow).  Strings are modelled as `List Char`; the fallible parsers
return `Except ParseError`.
-/

namespace EvdevShortcut

/-- `u8::count_ones` restricted to the 8 bits of a byte (all masks in this
development are below 256, so this agrees with the mathematical popcount). -/
def countOnes (n : Nat) : Nat :=
  (List.range 8).countP (fun i => n.testBit i)

/-- Modifier key for shortcuts (the 12-variant `Modifier` enum of `lib.rs`). -/
inductive Modifier where
  | Alt | LeftAlt | RightAlt
  | Ctrl | LeftCtrl | RightCtrl
  | Shift | LeftShift | RightShift
  | Meta | LeftMeta | RightMeta
  deriving DecidableEq, Repr, Fintype

/-- The `ALL_MODIFIERS` constant of `lib.rs`, in source order. -/
def ALL_MODIFIERS : List Modifier :=
  [.Alt, .LeftAlt, .RightAlt, .Ctrl, .LeftCtrl, .RightCtrl,
   .Shift, .LeftShift, .RightShift, .Meta, .LeftMeta, .RightMeta]

/-- The `COMBINED_MODIFIERS` constant of `lib.rs`. -/
def COMBINED_MODIFIERS : List Modifier := [.Alt, .Ctrl, .Shift, .Meta]

/-- `Modifier::mask` of `lib.rs`: the fixed bit table. -/
def Modifier.mask : Modifier → Nat
  | .Alt => 0b00000011
  | .LeftAlt => 0b00000001
  | .RightAlt => 0b00000010
  | .Ctrl => 0b00001100
  | .LeftCtrl => 0b00000100
  | .RightCtrl => 0b00001000
  | .Meta => 0b00110000
  | .LeftMeta => 0b00010000
  | .RightMeta => 0b00100000
  | .Shift => 0b11000000
  | .LeftShift => 0b01000000
  | .RightShift => 0b10000000

/-- Modelled from the spec: the `Key` enumeration lives in the repository's
`keycodes` module, which is not among the supplied sources.  The spec
describes it as a closed enumeration of physical keys with identity
equality.  We model the keys the claims exercise: the eight side-specific
modifier keys plus a few ordinary keys. -/
inductive Key where
  | KeyLeftAlt | KeyRightAlt
  | KeyLeftCtrl | KeyRightCtrl
  | KeyLeftMeta | KeyRightMeta
  | KeyLeftShift | KeyRightShift
  | KeyP | KeyN | KeyA
  | KeyLeft | KeyRight
  deriving DecidableEq, Repr, Fintype

/-- `Modifier::mask_from_key` of `lib.rs`: a side-specific modifier key maps
to its single-bit mask, every other key maps to 0. -/
def Modifier.maskFromKey : Key → Nat
  | .KeyLeftAlt => 0b00000001
  | .KeyRightAlt => 0b00000010
  | .KeyLeftCtrl => 0b00000100
  | .KeyRightCtrl => 0b00001000
  | .KeyLeftMeta => 0b00010000
  | .KeyRightMeta => 0b00100000
  | .KeyLeftShift => 0b01000000
  | .KeyRightShift => 0b10000000
  | _ => 0

/-- The `ModifierList` newtype of `lib.rs`: a byte-sized modifier bitmask. -/
structure ModifierList where
  mask : Nat
  deriving DecidableEq, Repr

/-- `ModifierList::new`: OR-fold of the given modifiers' masks. -/
def ModifierList.new (modifiers : List Modifier) : ModifierList :=
  ⟨modifiers.foldl (fun mask modifier => mask ||| modifier.mask) 0⟩

/-- `ModifierList::default()` (derived `Default`): the zero mask. -/
def ModifierList.default : ModifierList := ⟨0⟩

/-- The filter predicate inside `ModifierList::modifiers`: a modifier is
yielded iff its bits are fully set in the mask, except that a side-specific
modifier is suppressed when its combined (generic) modifier is fully
satisfied by the mask. -/
def modifierKept (mask : Nat) (modifier : Modifier) : Bool :=
  (COMBINED_MODIFIERS.all fun combined =>
    !(decide (combined ≠ modifier)
      && decide (combined.mask &&& modifier.mask = modifier.mask)
      && decide (combined.mask &&& mask = combined.mask)))
  && decide (modifier.mask &&& mask = modifier.mask)

/-- `ModifierList::modifiers`: the canonical ordered list of modifiers a
mask represents (iterates `ALL_MODIFIERS` with the suppression filter). -/
def ModifierList.modifiers (ml : ModifierList) : List Modifier :=
  ALL_MODIFIERS.filter (modifierKept ml.mask)

/-- `ModifierList::len`: number of canonical modifiers. -/
def ModifierList.len (ml : ModifierList) : Nat :=
  ml.modifiers.length

/-- `ModifierList::is_empty`. -/
def ModifierList.isEmpty (ml : ModifierList) : Bool :=
  ml.mask == 0

/-- The `Shortcut` struct of `lib.rs`: a modifier mask plus one key.
Equality is the derived field-wise equality. -/
structure Shortcut where
  modifiers : ModifierList
  key : Key
  deriving DecidableEq, Repr

/-- `Shortcut::new`: builds the mask by OR-reducing the given modifiers. -/
def Shortcut.new (modifiers : List Modifier) (key : Key) : Shortcut :=
  ⟨ModifierList.new modifiers, key⟩

/-- The fold computing `pressed_mask` in `Shortcut::is_triggered`. -/
def pressedMask (activeKeys : List Key) : Nat :=
  activeKeys.foldl (fun mask key => mask ||| Modifier.maskFromKey key) 0

/-- `Shortcut::is_triggered` of `lib.rs`.  The active-key `HashSet` is
modelled as a duplicate-free list. -/
def Shortcut.isTriggered (s : Shortcut) (activeKeys : List Key) : Bool :=
  let desiredMask := s.modifiers.mask
  let pressed := pressedMask activeKeys
  let desiredPresses := desiredMask &&& pressed
  let modifiersMatch := decide (desiredPresses = pressed)
    && decide (countOnes desiredPresses = s.modifiers.len)
  modifiersMatch && decide (s.key ∈ activeKeys)

/-! ### Textual grammar: names, parsing, display -/

/-- Errors of the fallible parsers.  `parse_display::ParseError` values are
distinguishable through their message: `invalidModifier` is the custom
`ParseError::with_message("Invalid modifier")` raised in
`ModifierList::from_str`, `parseFailed` is the derived-`FromStr` failure
raised when a `Modifier` or `Key` name is unknown. -/
inductive ParseError where
  | invalidModifier
  | parseFailed
  deriving DecidableEq, Repr

instance {ε α : Type} [DecidableEq ε] [DecidableEq α] :
    DecidableEq (Except ε α) := fun a b =>
  match a, b with
  | .ok x, .ok y =>
    if h : x = y then isTrue (congrArg Except.ok h)
    else isFalse (fun hh => h (Except.ok.inj hh))
  | .error x, .error y =>
    if h : x = y then isTrue (congrArg Except.error h)
    else isFalse (fun hh => h (Except.error.inj hh))
  | .ok _, .error _ => isFalse (fun hh => Except.noConfusion hh)
  | .error _, .ok _ => isFalse (fun hh => Except.noConfusion hh)

/-- The canonical textual identifier of a `Modifier` (the derived
`Display`/`FromStr` of `parse_display` use the variant name). -/
def Modifier.name : Modifier → List Char
  | .Alt => "Alt".toList
  | .LeftAlt => "LeftAlt".toList
  | .RightAlt => "RightAlt".toList
  | .Ctrl => "Ctrl".toList
  | .LeftCtrl => "LeftCtrl".toList
  | .RightCtrl => "RightCtrl".toList
  | .Shift => "Shift".toList
  | .LeftShift => "LeftShift".toList
  | .RightShift => "RightShift".toList
  | .Meta => "Meta".toList
  | .LeftMeta => "LeftMeta".toList
  | .RightMeta => "RightMeta".toList

/-- Modelled from the spec: the canonical textual identifier of a `Key`
(the `keycodes` module is not among the supplied sources; the spec says
each key has a canonical `KeyName` identifier such as `KeyP`). -/
def Key.name : Key → List Char
  | .KeyLeftAlt => "KeyLeftAlt".toList
  | .KeyRightAlt => "KeyRightAlt".toList
  | .KeyLeftCtrl => "KeyLeftCtrl".toList
  | .KeyRightCtrl => "KeyRightCtrl".toList
  | .KeyLeftMeta => "KeyLeftMeta".toList
  | .KeyRightMeta => "KeyRightMeta".toList
  | .KeyLeftShift => "KeyLeftShift".toList
  | .KeyRightShift => "KeyRightShift".toList
  | .KeyP => "KeyP".toList
  | .KeyN => "KeyN".toList
  | .KeyA => "KeyA".toList
  | .KeyLeft => "KeyLeft".toList
  | .KeyRight => "KeyRight".toList

/-- Every `Key` of the model, used for name lookup. -/
def allKeys : List Key :=
  [.KeyLeftAlt, .KeyRightAlt, .KeyLeftCtrl, .KeyRightCtrl,
   .KeyLeftMeta, .KeyRightMeta, .KeyLeftShift, .KeyRightShift,
   .KeyP, .KeyN, .KeyA, .KeyLeft, .KeyRight]

/-- The derived `FromStr` of `Modifier`: match the name table, otherwise a
derived parse failure. -/
def parseModifier (s : List Char) : Except ParseError Modifier :=
  match ALL_MODIFIERS.find? (fun m => decide (m.name = s)) with
  | some m => .ok m
  | none => .error .parseFailed

/-- Modelled from the spec: `Key`'s `FromStr` — match the canonical key
name table, any unknown name is a parse failure. -/
def parseKey (s : List Char) : Except ParseError Key :=
  match allKeys.find? (fun k => decide (k.name = s)) with
  | some k => .ok k
  | none => .error .parseFailed

/-- Rust `str::split(c)`: splits at every occurrence of `c`, keeping empty
segments (e.g. splitting `"a>>"` at `'>'` yields `["a", "", ""]`). -/
def splitOn (c : Char) : List Char → List (List Char)
  | [] => [[]]
  | x :: xs =>
    let rest := splitOn c xs
    if x = c then [] :: rest
    else (x :: rest.headD []) :: rest.tail

/-- Rust `str::split_once(c)`: splits at the FIRST occurrence of `c`,
returning the parts before and after it, or `none` if `c` is absent. -/
def splitOnce (c : Char) : List Char → Option (List Char × List Char)
  | [] => none
  | x :: xs =>
    if x = c then some ([], xs)
    else (splitOnce c xs).map (fun p => (x :: p.1, p.2))

/-- The per-token step of `ModifierList::from_str`: a token not starting
with `'<'` is the custom "Invalid modifier" error, otherwise the rest of
the token is parsed as a `Modifier` name. -/
def parseModifierToken (part : List Char) : Except ParseError Modifier :=
  match part with
  | c :: rest => if c = '<' then parseModifier rest else .error .invalidModifier
  | [] => .error .invalidModifier

/-- The `collect::<Result<Vec<Modifier>, ParseError>>` step of
`ModifierList::from_str`: parse each token in order, short-circuiting at
the first error. -/
def collectTokens : List (List Char) → Except ParseError (List Modifier)
  | [] => .ok []
  | p :: ps =>
    match parseModifierToken p with
    | .error e => .error e
    | .ok m =>
      match collectTokens ps with
      | .error e => .error e
      | .ok ms => .ok (m :: ms)

/-- `ModifierList::from_str` of `lib.rs`: split on `'>'`, drop empty
segments, parse each remaining token, and OR-fold the results. -/
def parseModifierList (s : List Char) : Except ParseError ModifierList :=
  match collectTokens ((splitOn '>' s).filter (fun part => part ≠ [])) with
  | .error e => .error e
  | .ok mods => .ok (ModifierList.new mods)

/-- `Shortcut::from_str` of `lib.rs`: `split_once('-')` — the FIRST `'-'`
separates the modifier part from the key part; with no `'-'` the whole
string is the key and the mask is empty. -/
def parseShortcut (s : List Char) : Except ParseError Shortcut :=
  match splitOnce '-' s with
  | some (modifiers, key) => do
    let m ← parseModifierList modifiers
    let k ← parseKey key
    pure ⟨m, k⟩
  | none => do
    let k ← parseKey s
    pure ⟨ModifierList.default, k⟩

/-- `Display for ModifierList`: each canonical modifier wrapped in `<>`. -/
def displayModifierList (ml : ModifierList) : List Char :=
  List.foldr (fun a b => a ++ b) []
    (ml.modifiers.map (fun m => '<' :: m.name ++ ['>']))

/-- `Display for Shortcut`: key name alone when the mask is empty,
otherwise the modifier list, a `'-'`, and the key name. -/
def displayShortcut (s : Shortcut) : List Char :=
  if s.modifiers.isEmpty then s.key.name
  else displayModifierList s.modifiers ++ '-' :: s.key.name

/-! ### Listener engine (from `listener.rs`) -/

/-- Modelled from the spec: `Key::try_from(code)` — the raw-code-to-`Key`
decode table of the absent `keycodes` module.  The spec only requires a
partial decode that may fail on unknown codes; we use the Linux evdev
codes of the modelled keys. -/
def Key.fromCode : Nat → Option Key
  | 29 => some .KeyLeftCtrl
  | 97 => some .KeyRightCtrl
  | 42 => some .KeyLeftShift
  | 54 => some .KeyRightShift
  | 56 => some .KeyLeftAlt
  | 100 => some .KeyRightAlt
  | 125 => some .KeyLeftMeta
  | 126 => some .KeyRightMeta
  | 25 => some .KeyP
  | 49 => some .KeyN
  | 30 => some .KeyA
  | 105 => some .KeyLeft
  | 106 => some .KeyRight
  | _ => none

/-- Whether the shortcut was pressed or released. -/
inductive ShortcutState where
  | Pressed
  | Released
  deriving DecidableEq, Repr

/-- Event emitted when a shortcut is pressed or released. -/
structure ShortcutEvent where
  shortcut : Shortcut
  state : ShortcutState
  deriving DecidableEq, Repr

/-- A raw evdev event as seen by the listener loop: a key code and a
press/release value. -/
structure RawEvent where
  code : Nat
  value : Nat
  deriving DecidableEq, Repr

/-- `HashSet::insert` on a list-as-set. -/
def setInsert {α : Type} [DecidableEq α] (x : α) (l : List α) : List α :=
  if x ∈ l then l else x :: l

/-- `HashSet::remove` on a list-as-set. -/
def setRemove {α : Type} [DecidableEq α] (x : α) (l : List α) : List α :=
  l.filter (fun y => y ≠ x)

/-- The private per-`listen`-session state: the active-key set and the
triggered ("pressed shortcuts") set, both modelled as lists-as-sets. -/
structure ListenerState where
  active : List Key
  pressed : List Shortcut
  deriving DecidableEq, Repr

/-- The initial state of a listen session: both sets empty. -/
def initState : ListenerState := ⟨[], []⟩

/-- The active-key update of the listener loop: decode the code; value 1
inserts the key, value 0 removes it, any other value is ignored; decode
failure leaves the set unchanged. -/
def updateActive (active : List Key) (ev : RawEvent) : List Key :=
  match Key.fromCode ev.code with
  | some key =>
    match ev.value with
    | 1 => setInsert key active
    | 0 => setRemove key active
    | _ => active
  | none => active

/-- The per-shortcut edge-detection loop of `listen`: walk the registry
snapshot in order, flipping each shortcut in or out of the triggered set
and emitting a `Pressed`/`Released` event on each flip. -/
def processShortcuts (active : List Key) :
    List Shortcut → List Shortcut → List Shortcut × List ShortcutEvent
  | [], pressed => (pressed, [])
  | s :: rest, pressed =>
    let isT := s.isTriggered active
    let wasT := decide (s ∈ pressed)
    if isT && !wasT then
      let r := processShortcuts active rest (setInsert s pressed)
      (r.1, ⟨s, .Pressed⟩ :: r.2)
    else if !isT && wasT then
      let r := processShortcuts active rest (setRemove s pressed)
      (r.1, ⟨s, .Released⟩ :: r.2)
    else
      processShortcuts active rest pressed

/-- One iteration of the listener loop body for one raw event, with the
registry snapshot `registry`: update the active keys, then run the
edge-detection loop, returning the new state and the emitted events. -/
def stepEvent (registry : List Shortcut) (st : ListenerState) (ev : RawEvent) :
    ListenerState × List ShortcutEvent :=
  let active := updateActive st.active ev
  let r := processShortcuts active registry st.pressed
  (⟨active, r.1⟩, r.2)

/-- Run the listener loop over a whole raw event sequence (registry held
fixed), returning the final state and the per-event emission lists. -/
def runTrace (registry : List Shortcut) (st : ListenerState) :
    List RawEvent → ListenerState × List (List ShortcutEvent)
  | [] => (st, [])
  | ev :: evs =>
    let r := stepEvent registry st ev
    let rest := runTrace registry r.1 evs
    (rest.1, r.2 :: rest.2)

/-- `ShortcutListener::add`: `HashSet::insert` under the mutex, returning
whether the shortcut was newly inserted, paired with the new contents. -/
def registryAdd (reg : List Shortcut) (s : Shortcut) : Bool × List Shortcut :=
  if s ∈ reg then (false, reg) else (true, s :: reg)

/-- `ShortcutListener::remove`: `HashSet::remove` under the mutex,
returning whether the shortcut was present, paired with the new contents. -/
def registryRemove (reg : List Shortcut) (s : Shortcut) : Bool × List Shortcut :=
  if s ∈ reg then (true, setRemove s reg) else (false, reg)

/-- `ShortcutListener::has`: membership query, no mutation. -/
def registryHas (reg : List Shortcut) (s : Shortcut) : Bool :=
  decide (s ∈ reg)

/-! ### Spec-side definitions (written from the spec's words, for
refinement comparisons) -/

/-- The side-specific counterparts of a generic (combined) modifier. -/
def sideSpecificOf : Modifier → List Modifier
  | .Alt => [.LeftAlt, .RightAlt]
  | .Ctrl => [.LeftCtrl, .RightCtrl]
  | .Shift => [.LeftShift, .RightShift]
  | .Meta => [.LeftMeta, .RightMeta]
  | _ => []

/-- The edge-detection invariant of a listen session with a fixed
registry: the triggered set holds exactly the registered shortcuts whose
predicate currently holds. -/
def Consistent (registry : List Shortcut) (st : ListenerState) : Prop :=
  ∀ s : Shortcut,
    s ∈ st.pressed ↔ (s ∈ registry ∧ s.isTriggered st.active = true)

/-- Written from the words of the spec's triggering predicate: `count` is
the number of CANONICAL modifiers of a mask, and the match requires
`count(overlap) == count(desired)`. -/
def specIsTriggered (s : Shortcut) (activeKeys : List Key) : Bool :=
  let desired := s.modifiers.mask
  let pressed := pressedMask activeKeys
  let overlap := desired &&& pressed
  decide (overlap = pressed)
    && decide ((ModifierList.mk overlap).len = (ModifierList.mk desired).len)
    && decide (s.key ∈ activeKeys)

/-- Split at the LAST occurrence of `c` (first occurrence in the reversed
string), as the spec's parse description demands. -/
def splitOnceLast (c : Char) (s : List Char) :
    Option (List Char × List Char) :=
  (splitOnce c s.reverse).map (fun p => (p.2.reverse, p.1.reverse))

/-- Written from the words of the spec's parse description: split at the
LAST `'-'`, parse the left part as the modifier sequence and the right
part as the key. -/
def specParseShortcut (s : List Char) : Except ParseError Shortcut :=
  match splitOnceLast '-' s with
  | some (modifiers, key) => do
    let m ← parseModifierList modifiers
    let k ← parseKey key
    pure ⟨m, k⟩
  | none => do
    let k ← parseKey s
    pure ⟨ModifierList.default, k⟩

/-! ### Supporting lemmas -/

theorem or_lt_256 {x y : Nat} (hx : x < 256) (hy : y < 256) : x ||| y < 256 := by
  have h256 : (256 : Nat) = 2 ^ 8 := by norm_num
  rw [h256] at hx hy ⊢
  exact Nat.or_lt_two_pow hx hy

theorem Modifier.mask_lt (m : Modifier) : m.mask < 256 := by
  cases m <;> decide

theorem foldl_or_mask_lt (l : List Modifier) (acc : Nat) (h : acc < 256) :
    l.foldl (fun mask modifier => mask ||| modifier.mask) acc < 256 := by
  induction l generalizing acc with
  | nil => exact h
  | cons m rest ih => exact ih _ (or_lt_256 h m.mask_lt)

theorem Shortcut.new_congr {l1 l2 : List Modifier} (k : Key)
    (h : (ModifierList.new l1).mask = (ModifierList.new l2).mask) :
    Shortcut.new l1 k = Shortcut.new l2 k :=
  congrArg (fun n => Shortcut.mk (ModifierList.mk n) k) h

theorem orFold_perm {l1 l2 : List Modifier} (h : l1.Perm l2) :
    (ModifierList.new l1).mask = (ModifierList.new l2).mask := by
  show List.foldl (fun mask modifier => mask ||| modifier.mask) 0 l1 =
    List.foldl (fun mask modifier => mask ||| modifier.mask) 0 l2
  refine h.foldl_eq' ?_ 0
  intro x _ y _ z
  show (z ||| x.mask) ||| y.mask = (z ||| y.mask) ||| x.mask
  rw [Nat.lor_assoc, Nat.lor_assoc, Nat.lor_comm x.mask y.mask]

theorem splitOnce_eq_none (c : Char) :
    ∀ (s : List Char), c ∉ s → splitOnce c s = none
  | [], _ => rfl
  | x :: xs, h => by
    have hx : ¬(x = c) := fun hx => h (by simp [hx])
    simp [splitOnce, hx, splitOnce_eq_none c xs
      (fun hc => h (List.mem_cons_of_mem _ hc))]

theorem splitOnce_append (c : Char) :
    ∀ (a b : List Char), c ∉ a → splitOnce c (a ++ c :: b) = some (a, b)
  | [], b, _ => by simp [splitOnce]
  | x :: xs, b, h => by
    have hx : ¬(x = c) := fun hx => h (by simp [hx])
    simp [splitOnce, hx, splitOnce_append c xs b
      (fun hc => h (List.mem_cons_of_mem _ hc))]

set_option maxRecDepth 10000 in
theorem mask_roundtrip : ∀ m : Fin 256,
    parseModifierList (displayModifierList ⟨m.val⟩) = .ok ⟨m.val⟩ ∧
    '-' ∉ displayModifierList ⟨m.val⟩ := by decide

theorem key_roundtrip : ∀ k : Key, parseKey k.name = .ok k ∧ '-' ∉ k.name := by
  decide

/-! ### Claim theorems -/

/-- C1 (amended): `is_triggered(s, A)` is true iff, with
`desired = s.modifiers.mask()`, `pressed` the OR over keys in `A` of
`mask_from_key` and `overlap = desired & pressed`: `overlap == pressed`,
the POPULATION COUNT of `overlap` (`u8::count_ones`, not the canonical
modifier count) equals the number of canonical modifiers of `desired`,
and `s.key` is a member of `A`. -/
theorem isTriggered_iff (s : Shortcut) (activeKeys : List Key) :
    s.isTriggered activeKeys = true ↔
      (s.modifiers.mask &&& pressedMask activeKeys = pressedMask activeKeys ∧
       countOnes (s.modifiers.mask &&& pressedMask activeKeys) =
        s.modifiers.len ∧
       s.key ∈ activeKeys) := by
  simp [Shortcut.isTriggered, and_assoc]

/-- C1 counterexample: for shortcut `<Ctrl>-KeyP` with active keys
`{LeftCtrl, RightCtrl, KeyP}`, the code's `is_triggered` is false (the
popcount of the overlap is 2 but the shortcut's canonical length is 1),
while the claim's formula — which counts CANONICAL modifiers of the
overlap — is true.  So the claimed iff fails at this input. -/
theorem isTriggered_both_sides_counterexample :
    Shortcut.isTriggered (Shortcut.new [.Ctrl] .KeyP)
        [.KeyLeftCtrl, .KeyRightCtrl, .KeyP] = false ∧
    specIsTriggered (Shortcut.new [.Ctrl] .KeyP)
        [.KeyLeftCtrl, .KeyRightCtrl, .KeyP] = true := by decide

/-- C2: the matching truth table of the spec holds exactly, on the code's
`is_triggered`. -/
theorem matching_truth_table :
    (Shortcut.new [.Ctrl] .KeyP).isTriggered [] = false ∧
    (Shortcut.new [.Ctrl] .KeyP).isTriggered [.KeyLeftCtrl, .KeyP] = true ∧
    (Shortcut.new [.Ctrl] .KeyP).isTriggered [.KeyRightCtrl, .KeyP] = true ∧
    (Shortcut.new [.Ctrl] .KeyP).isTriggered
      [.KeyLeftCtrl, .KeyLeftAlt, .KeyP] = false ∧
    (Shortcut.new [.LeftCtrl] .KeyP).isTriggered [.KeyLeftCtrl, .KeyP] = true ∧
    (Shortcut.new [.LeftCtrl] .KeyP).isTriggered
      [.KeyRightCtrl, .KeyP] = false ∧
    (Shortcut.new [.LeftCtrl, .LeftAlt] .KeyLeft).isTriggered
      [.KeyLeftCtrl, .KeyLeftAlt, .KeyLeft] = true ∧
    (Shortcut.new [.LeftCtrl, .LeftAlt] .KeyLeft).isTriggered
      [.KeyLeftCtrl, .KeyRightAlt, .KeyLeft] = false ∧
    (Shortcut.new [.Ctrl, .Alt] .KeyLeft).isTriggered
      [.KeyLeftCtrl, .KeyRightAlt, .KeyLeft] = true := by decide

/-- C3: with only `<Meta>-KeyN` registered, the per-event transition over
`[press Meta, press KeyN, release KeyN, release Meta]` (starting from
empty active-key and triggered sets) emits exactly `Pressed` after the
KeyN press and `Released` after the KeyN release and nothing on the
Meta-only transitions — for either Meta key (codes 125 and 126), and a
key-repeat event (value 2) while both keys stay held emits no duplicate. -/
theorem edge_detection_scenario :
    ((runTrace [Shortcut.new [.Meta] .KeyN] initState
        [⟨125, 1⟩, ⟨49, 1⟩, ⟨49, 0⟩, ⟨125, 0⟩]).2 =
      [[], [⟨Shortcut.new [.Meta] .KeyN, .Pressed⟩],
       [⟨Shortcut.new [.Meta] .KeyN, .Released⟩], []]) ∧
    ((runTrace [Shortcut.new [.Meta] .KeyN] initState
        [⟨126, 1⟩, ⟨49, 1⟩, ⟨49, 0⟩, ⟨126, 0⟩]).2 =
      [[], [⟨Shortcut.new [.Meta] .KeyN, .Pressed⟩],
       [⟨Shortcut.new [.Meta] .KeyN, .Released⟩], []]) ∧
    ((runTrace [Shortcut.new [.Meta] .KeyN] initState
        [⟨125, 1⟩, ⟨49, 1⟩, ⟨49, 2⟩, ⟨49, 0⟩, ⟨125, 0⟩]).2 =
      [[], [⟨Shortcut.new [.Meta] .KeyN, .Pressed⟩], [],
       [⟨Shortcut.new [.Meta] .KeyN, .Released⟩], []]) := by decide

/-- C4: round-trip law — for every constructible shortcut (any modifier
list, any key), parsing the display string yields the shortcut back. -/
theorem parse_display_roundtrip (mods : List Modifier) (k : Key) :
    parseShortcut (displayShortcut (Shortcut.new mods k)) =
      .ok (Shortcut.new mods k) := by
  have hmask : (ModifierList.new mods).mask < 256 :=
    foldl_or_mask_lt mods 0 (by norm_num)
  have hkr := key_roundtrip k
  by_cases h0 : (ModifierList.new mods).mask = 0
  · have hml : ModifierList.new mods = ModifierList.mk 0 := by
      rw [← h0]
    have hdisp : displayShortcut (Shortcut.new mods k) = k.name := by
      simp [displayShortcut, Shortcut.new, ModifierList.isEmpty, h0]
    rw [hdisp]
    simp [parseShortcut, splitOnce_eq_none '-' k.name hkr.2, hkr.1,
      Shortcut.new, ModifierList.default, hml]
  · have hmr : parseModifierList (displayModifierList (ModifierList.new mods)) =
        .ok (ModifierList.new mods) ∧
        '-' ∉ displayModifierList (ModifierList.new mods) :=
      mask_roundtrip ⟨(ModifierList.new mods).mask, hmask⟩
    have hdisp : displayShortcut (Shortcut.new mods k) =
        displayModifierList (ModifierList.new mods) ++ '-' :: k.name := by
      simp [displayShortcut, Shortcut.new, ModifierList.isEmpty, h0]
    rw [hdisp]
    simp only [parseShortcut, splitOnce_append '-' _ _ hmr.2, hmr.1, hkr.1]
    rfl

/-- C8: registry semantics — `add` returns true iff the shortcut was
absent (a second `add` returns false), `remove` returns true iff it was
present (a second `remove` returns false), `has` is membership. -/
theorem registry_semantics (reg : List Shortcut) (s : Shortcut) :
    ((registryAdd reg s).1 = true ↔ s ∉ reg) ∧
    (registryAdd (registryAdd reg s).2 s).1 = false ∧
    ((registryRemove reg s).1 = true ↔ s ∈ reg) ∧
    (registryRemove (registryRemove reg s).2 s).1 = false ∧
    (registryHas reg s = true ↔ s ∈ reg) := by
  by_cases h : s ∈ reg <;>
    simp [registryAdd, registryRemove, registryHas, setRemove, h]

set_option maxRecDepth 4000 in
/-- C9: canonicalization law — for every byte mask, the canonical modifier
list never contains both a generic modifier and one of its side-specific
counterparts. -/
theorem canonicalization_law (mask : Fin 256) (g m : Modifier)
    (hm : m ∈ sideSpecificOf g) :
    ¬(g ∈ (ModifierList.mk mask.val).modifiers ∧
      m ∈ (ModifierList.mk mask.val).modifiers) := by
  revert mask g m
  decide

theorem canonicalization_law_witness :
    (Modifier.LeftAlt ∈ sideSpecificOf .Alt) ∧
    ¬(Modifier.Alt ∈ (ModifierList.mk (3 : Fin 256).val).modifiers ∧
      Modifier.LeftAlt ∈ (ModifierList.mk (3 : Fin 256).val).modifiers) :=
  ⟨by decide, canonicalization_law 3 .Alt .LeftAlt (by decide)⟩

/-- C10: shortcut equality is determined by the OR-folded mask and the
key alone — equal masks give equal shortcuts regardless of the modifier
list used, `[LeftCtrl, RightCtrl]` equals `[Ctrl]`, modifier order never
matters, and such shortcuts occupy a single registry entry. -/
theorem shortcut_eq_by_mask :
    (∀ (k : Key) (l1 l2 : List Modifier),
      (ModifierList.new l1).mask = (ModifierList.new l2).mask →
      Shortcut.new l1 k = Shortcut.new l2 k) ∧
    (∀ k : Key,
      Shortcut.new [.LeftCtrl, .RightCtrl] k = Shortcut.new [.Ctrl] k) ∧
    (∀ (k : Key) (l1 l2 : List Modifier), l1.Perm l2 →
      Shortcut.new l1 k = Shortcut.new l2 k) ∧
    (∀ k : Key,
      (registryAdd (registryAdd [] (Shortcut.new [.Ctrl] k)).2
        (Shortcut.new [.LeftCtrl, .RightCtrl] k)).1 = false) := by
  refine ⟨fun k l1 l2 h => Shortcut.new_congr k h, ?_, ?_, ?_⟩
  · intro k
    exact Shortcut.new_congr k (by decide)
  · intro k l1 l2 hp
    exact Shortcut.new_congr k (orFold_perm hp)
  · intro k
    have heq : Shortcut.new [Modifier.LeftCtrl, Modifier.RightCtrl] k =
        Shortcut.new [Modifier.Ctrl] k := Shortcut.new_congr k (by decide)
    simp [registryAdd, heq]

theorem shortcut_eq_by_mask_witness :
    (ModifierList.new [Modifier.Ctrl]).mask =
      (ModifierList.new [Modifier.LeftCtrl, Modifier.RightCtrl]).mask ∧
    Shortcut.new [Modifier.Ctrl] .KeyP =
      Shortcut.new [Modifier.LeftCtrl, Modifier.RightCtrl] .KeyP :=
  ⟨by decide, shortcut_eq_by_mask.1 .KeyP _ _ (by decide)⟩

/-- C5 counterexample: the code splits at the FIRST `'-'`, not the last.
On `"<Ctrl>-a-b"` the code parses `"a-b"` as the key (a derived parse
failure), while the claim's last-split reading parses `"<Ctrl>-a"` as the
modifier part (the custom "Invalid modifier" error) — observably
different results. -/
theorem parse_last_dash_counterexample :
    parseShortcut ("<Ctrl>-a-b".toList) = .error .parseFailed ∧
    specParseShortcut ("<Ctrl>-a-b".toList) = .error .invalidModifier ∧
    parseShortcut ("<Ctrl>-a-b".toList) ≠
      specParseShortcut ("<Ctrl>-a-b".toList) := by decide

/-- C5 (amended): for every input containing a `'-'`, parse splits the
string at the FIRST `'-'` — the part before it (which contains no `'-'`)
is parsed as the modifier sequence and the part after it as the key; an
input with no `'-'` is parsed whole as a key with an empty mask. -/
theorem parse_splits_at_first_dash :
    (∀ (pre post : List Char), '-' ∉ pre →
      parseShortcut (pre ++ '-' :: post) = do
        let m ← parseModifierList pre
        let k ← parseKey post
        pure ⟨m, k⟩) ∧
    (∀ s : List Char, '-' ∉ s →
      parseShortcut s = do
        let k ← parseKey s
        pure (Shortcut.mk ModifierList.default k)) := by
  constructor
  · intro pre post h
    simp [parseShortcut, splitOnce_append '-' pre post h]
  · intro s h
    simp [parseShortcut, splitOnce_eq_none '-' s h]

theorem parse_splits_at_first_dash_witness :
    ('-' ∉ "<Ctrl>".toList) ∧
    parseShortcut ("<Ctrl>".toList ++ '-' :: "KeyP".toList) = (do
      let m ← parseModifierList ("<Ctrl>".toList)
      let k ← parseKey ("KeyP".toList)
      pure ⟨m, k⟩) :=
  ⟨by decide, parse_splits_at_first_dash.1 _ _ (by decide)⟩

/-- C6 counterexample: the modifier part `"<Ctrl"` contains a token
missing its closing `'>'`, yet parsing succeeds (split-on-`'>'` never
requires a final `'>'`), refuting the claim that every malformed token
yields a ParseError. -/
theorem modifier_unclosed_token_counterexample :
    ('>' ∉ "<Ctrl".toList) ∧
    parseModifierList ("<Ctrl".toList) = .ok (ModifierList.new [.Ctrl]) := by
  decide

theorem parseModifier_ok_iff (s : List Char) :
    (∃ m, parseModifier s = .ok m) ↔ ∃ m : Modifier, s = m.name := by
  unfold parseModifier
  cases hfind : ALL_MODIFIERS.find? (fun mm => decide (mm.name = s)) with
  | none =>
    simp only [hfind]
    constructor
    · rintro ⟨m, hm⟩
      cases hm
    · rintro ⟨m, rfl⟩
      have hmem : m ∈ ALL_MODIFIERS := by cases m <;> decide
      have hnone := List.find?_eq_none.mp hfind m hmem
      simp at hnone
  | some mm =>
    simp only [hfind]
    constructor
    · rintro ⟨m, hm⟩
      have hp := List.find?_some hfind
      simp at hp
      exact ⟨mm, hp.symm⟩
    · intro _
      exact ⟨mm, rfl⟩

theorem parseModifierToken_ok_iff (part : List Char) :
    (∃ m, parseModifierToken part = .ok m) ↔
      ∃ m : Modifier, part = '<' :: m.name := by
  cases part with
  | nil =>
    constructor
    · rintro ⟨m, hm⟩
      cases hm
    · rintro ⟨m, hm⟩
      cases hm
  | cons c rest =>
    by_cases hc : c = '<'
    · subst hc
      have hred : parseModifierToken ('<' :: rest) = parseModifier rest := by
        simp [parseModifierToken]
      rw [hred, parseModifier_ok_iff]
      constructor
      · rintro ⟨m, rfl⟩
        exact ⟨m, rfl⟩
      · rintro ⟨m, hm⟩
        exact ⟨m, (List.cons.inj hm).2⟩
    · have hred : parseModifierToken (c :: rest) =
          .error .invalidModifier := by
        simp [parseModifierToken, hc]
      rw [hred]
      constructor
      · rintro ⟨m, hm⟩
        cases hm
      · rintro ⟨m, hm⟩
        exact absurd (List.cons.inj hm).1 hc

theorem collectTokens_ok_iff :
    ∀ parts : List (List Char),
      (∃ ms, collectTokens parts = .ok ms) ↔
        ∀ part ∈ parts, ∃ m, parseModifierToken part = .ok m := by
  intro parts
  induction parts with
  | nil =>
    constructor
    · intro _ part hpart
      cases hpart
    · intro _
      exact ⟨[], rfl⟩
  | cons p ps ih =>
    cases hp : parseModifierToken p with
    | error e =>
      simp only [collectTokens, hp, List.mem_cons]
      constructor
      · rintro ⟨ms, hms⟩
        cases hms
      · intro hall
        obtain ⟨m, hm⟩ := hall p (Or.inl rfl)
        rw [hp] at hm
        cases hm
    | ok m =>
      cases hrest : collectTokens ps with
      | error e =>
        simp only [collectTokens, hp, hrest, List.mem_cons]
        constructor
        · rintro ⟨ms, hms⟩
          cases hms
        · intro hall
          obtain ⟨ms, hms⟩ := ih.mpr (fun x hx => hall x (Or.inr hx))
          rw [hrest] at hms
          cases hms
      | ok ms =>
        simp only [collectTokens, hp, hrest, List.mem_cons]
        constructor
        · intro _ part hpart
          rcases hpart with rfl | hpart
          · exact ⟨m, hp⟩
          · exact ih.mp ⟨ms, hrest⟩ part hpart
        · intro _
          exact ⟨m :: ms, rfl⟩

/-- C6 (amended): modifier-part parsing succeeds iff every nonempty
`'>'`-delimited segment is `'<'` followed by a known modifier name —
so a token missing its opening `'<'` or naming an unknown modifier is a
ParseError, but a trailing token missing only its closing `'>'` is
accepted when its content names a known modifier. -/
theorem parseModifierList_ok_iff (s : List Char) :
    (∃ ml, parseModifierList s = .ok ml) ↔
      ∀ part ∈ (splitOn '>' s).filter (fun part => part ≠ []),
        ∃ m : Modifier, part = '<' :: m.name := by
  constructor
  · rintro ⟨ml, hml⟩
    intro part hpart
    unfold parseModifierList at hml
    cases hct : collectTokens
        ((splitOn '>' s).filter (fun part => part ≠ [])) with
    | error e =>
      rw [hct] at hml
      cases hml
    | ok mods =>
      exact (parseModifierToken_ok_iff part).mp
        ((collectTokens_ok_iff _).mp ⟨mods, hct⟩ part hpart)
  · intro hall
    obtain ⟨ms, hms⟩ := (collectTokens_ok_iff _).mpr
      (fun x hx => (parseModifierToken_ok_iff x).mpr (hall x hx))
    refine ⟨ModifierList.new ms, ?_⟩
    unfold parseModifierList
    rw [hms]

theorem mem_setInsert {α : Type} [DecidableEq α] (x t : α) (l : List α) :
    x ∈ setInsert t l ↔ x = t ∨ x ∈ l := by
  unfold setInsert
  by_cases h : t ∈ l
  · simp only [if_pos h]
    constructor
    · exact Or.inr
    · rintro (rfl | hx)
      · exact h
      · exact hx
  · simp [if_neg h]

theorem mem_setRemove {α : Type} [DecidableEq α] (x t : α) (l : List α) :
    x ∈ setRemove t l ↔ x ∈ l ∧ x ≠ t := by
  simp [setRemove, List.mem_filter]

theorem processShortcuts_fst_mem (active : List Key) (snap : List Shortcut) :
    ∀ (pressed : List Shortcut) (s : Shortcut),
      (s ∈ (processShortcuts active snap pressed).1 ↔
        (if s ∈ snap then s.isTriggered active = true else s ∈ pressed)) := by
  induction snap with
  | nil =>
    intro pressed s
    simp [processShortcuts]
  | cons t rest ih =>
    intro pressed s
    by_cases hs : s = t
    · subst hs
      cases hT : s.isTriggered active <;> by_cases hW : s ∈ pressed <;>
        · simp only [processShortcuts, hT, hW, List.mem_cons]
          simp [ih, mem_setInsert, mem_setRemove, hT, hW]
    · cases hT : t.isTriggered active <;> by_cases hW : t ∈ pressed <;>
        · simp only [processShortcuts, hT, hW, List.mem_cons]
          simp [ih, mem_setInsert, mem_setRemove, hs]
  
theorem processShortcuts_unchanged (active : List Key) (snap : List Shortcut) :
    ∀ (pressed : List Shortcut),
      (∀ s ∈ snap, (s ∈ pressed ↔ s.isTriggered active = true)) →
      processShortcuts active snap pressed = (pressed, []) := by
  induction snap with
  | nil =>
    intro pressed _
    simp [processShortcuts]
  | cons t rest ih =>
    intro pressed h
    have ht := h t (List.mem_cons_self t rest)
    cases hT : t.isTriggered active with
    | true =>
      have hW : t ∈ pressed := ht.mpr hT
      simp [processShortcuts, hT, hW,
        ih pressed (fun s hs => h s (List.mem_cons_of_mem _ hs))]
    | false =>
      have hW : t ∉ pressed := fun hw => by
        have hx := ht.mp hw
        rw [hT] at hx
        cases hx
      simp [processShortcuts, hT, hW,
        ih pressed (fun s hs => h s (List.mem_cons_of_mem _ hs))]

theorem consistent_init (registry : List Shortcut) :
    Consistent registry initState := by
  intro s
  simp [initState, Shortcut.isTriggered]

theorem stepEvent_consistent (registry : List Shortcut) (st : ListenerState)
    (ev : RawEvent) (h : Consistent registry st) :
    Consistent registry (stepEvent registry st ev).1 := by
  intro s
  simp only [stepEvent]
  rw [processShortcuts_fst_mem]
  by_cases hs : s ∈ registry
  · simp [hs]
  · simp only [if_neg hs]
    have hc := h s
    constructor
    · intro hp
      exact absurd (hc.mp hp).1 hs
    · rintro ⟨hreg, _⟩
      exact absurd hreg hs

theorem runTrace_consistent (registry : List Shortcut) :
    ∀ (evs : List RawEvent) (st : ListenerState), Consistent registry st →
      Consistent registry (runTrace registry st evs).1 := by
  intro evs
  induction evs with
  | nil =>
    intro st h
    exact h
  | cons ev evs ih =>
    intro st h
    exact ih _ (stepEvent_consistent registry st ev h)

/-- C7: a raw event whose key code fails to decode leaves the
active-key set unchanged and emits no `ShortcutEvent`, in any state the
listener loop can reach from the initial state under a fixed registry. -/
theorem unknown_code_resilience (registry : List Shortcut)
    (evs : List RawEvent) (ev : RawEvent)
    (h : Key.fromCode ev.code = none) :
    (stepEvent registry (runTrace registry initState evs).1 ev).1.active =
      (runTrace registry initState evs).1.active ∧
    (stepEvent registry (runTrace registry initState evs).1 ev).2 = [] := by
  have hcons : Consistent registry (runTrace registry initState evs).1 :=
    runTrace_consistent registry evs initState (consistent_init registry)
  have hact : updateActive (runTrace registry initState evs).1.active ev =
      (runTrace registry initState evs).1.active := by
    simp [updateActive, h]
  have hproc : processShortcuts (runTrace registry initState evs).1.active
      registry (runTrace registry initState evs).1.pressed =
      ((runTrace registry initState evs).1.pressed, []) := by
    apply processShortcuts_unchanged
    intro s hs
    have hc := hcons s
    constructor
    · intro hp
      exact (hc.mp hp).2
    · intro htrig
      exact hc.mpr ⟨hs, htrig⟩
  constructor
  · simp [stepEvent, hact]
  · simp [stepEvent, hact, hproc]

theorem unknown_code_resilience_witness :
    Key.fromCode 999 = none ∧
    ((stepEvent [Shortcut.new [.Meta] .KeyN]
        (runTrace [Shortcut.new [.Meta] .KeyN] initState [⟨125, 1⟩]).1
        ⟨999, 1⟩).1.active =
      (runTrace [Shortcut.new [.Meta] .KeyN] initState [⟨125, 1⟩]).1.active ∧
     (stepEvent [Shortcut.new [.Meta] .KeyN]
        (runTrace [Shortcut.new [.Meta] .KeyN] initState [⟨125, 1⟩]).1
        ⟨999, 1⟩).2 = []) :=
  ⟨by decide, unknown_code_resilience [Shortcut.new [.Meta] .KeyN]
    [⟨125, 1⟩] ⟨999, 1⟩ (by decide)⟩

end EvdevShortcut
